import Mathlib

/-!
Shallow embedding of the SuaraNusa data-pipeline script (src/main.py) and
verification of the specification's claims about it.

The script's pure fragments (title normalisation, duration parsing, the
segment-count computation) are translated directly into Lean functions.
Its effectful fragments (YouTube download, ffmpeg transcoding, the
per-entry acquisition loop) are translated into explicit state-passing
functions over a modelled filesystem (a list of existing paths), with the
external services (YouTube metadata, stream availability, the ffmpeg
subprocess) supplied as oracle parameters.
-/

/-! ## Constants of the script -/

def MAX_VIDEO_DURATION : Nat := 500

def SEGMENT_DURATION : Nat := 30

def SONG_LENGTH_PER_TITLE : Nat := 5

/-! ## NameNormalizer: yt_title_clean

Python source:
  text = title.lower().replace(' ', '_')
  return re.sub(r'[^a-z0-9_]', '', re.sub(r'_\x7b2,\x7d', '_', text))

`title.lower()` is modelled character-wise by `Char.toLower` (ASCII, which
covers all characters relevant to the claims).  The inner regex rewrite
collapses every run of two or more underscores to a single underscore; the
outer one deletes every character outside [a-z0-9_].  Note the order: the
collapse happens BEFORE the deletion.
-/

/-- The character class [a-z0-9_] kept by the outer regex substitution. -/
def isKeptChar (c : Char) : Bool :=
  (97 ≤ c.toNat && c.toNat ≤ 122) || (48 ≤ c.toNat && c.toNat ≤ 57) || c.toNat == 95

/-- Python str.replace with a one-character pattern: space to underscore. -/
def spaceToUnderscore (c : Char) : Char :=
  if c = ' ' then '_' else c

/-- Collapse every run of two or more consecutive underscores to a single
underscore, exactly like the inner regex substitution. -/
def collapseUnderscores : List Char → List Char
  | [] => []
  | [c] => [c]
  | c :: d :: rest =>
    if c = '_' ∧ d = '_' then collapseUnderscores (d :: rest)
    else c :: collapseUnderscores (d :: rest)

/-- The title normaliser of the script, over character lists. -/
def yt_title_clean (l : List Char) : List Char :=
  (collapseUnderscores ((l.map Char.toLower).map spaceToUnderscore)).filter isKeptChar

/-- The title normaliser over strings. -/
def yt_title_clean_str (s : String) : String :=
  ⟨yt_title_clean s.toList⟩

/-! ## DurationParser: parse_duration

Python source:
  duration_str = duration_str.replace('.', ':')
  if duration_str.count(':') == 2:
      duration = datetime.strptime(duration_str, '%H:%M:%S')
  else:
      duration = datetime.strptime(duration_str, '%M:%S')
  return duration.hour * 3600 + duration.minute * 60 + duration.second

datetime.strptime matches each numeric directive against one or two
decimal digits, requires the whole string to be consumed, and restricts
%H to 0..23 and %M to 0..59 by its regular expression; %S additionally
admits 60 and 61 in the regular expression, but constructing the datetime
then raises ValueError, so the net behaviour is seconds 0..59.  Any
mismatch raises ValueError, modelled as `none`.
-/

/-- Python str.replace('.', ':'), character-wise. -/
def dotToColon (c : Char) : Char :=
  if c = '.' then ':' else c

/-- Split a character list on ':' (every occurrence; empty fields kept),
so that a string containing n colons yields n+1 fields. -/
def splitCols : List Char → List (List Char)
  | [] => [[]]
  | c :: cs =>
    if c = ':' then [] :: splitCols cs
    else
      match splitCols cs with
      | p :: ps => (c :: p) :: ps
      | [] => [[c]]

/-- ASCII decimal digit. -/
def isDigitChar (c : Char) : Bool :=
  48 ≤ c.toNat && c.toNat ≤ 57

/-- Value of a one- or two-digit numeric field, as matched by a strptime
numeric directive; any other shape fails. -/
def fieldVal : List Char → Option Nat
  | [c] => if isDigitChar c then some (c.toNat - 48) else none
  | [c, d] =>
    if isDigitChar c ∧ isDigitChar d then some ((c.toNat - 48) * 10 + (d.toNat - 48))
    else none
  | _ => none

/-- The duration parser of the script: total seconds, or `none` where the
Python code raises ValueError. -/
def parse_duration (l : List Char) : Option Nat :=
  match splitCols (l.map dotToColon) with
  | [m, s] =>
    match fieldVal m, fieldVal s with
    | some mv, some sv =>
      if mv ≤ 59 ∧ sv ≤ 59 then some (mv * 60 + sv) else none
    | _, _ => none
  | [h, m, s] =>
    match fieldVal h, fieldVal m, fieldVal s with
    | some hv, some mv, some sv =>
      if hv ≤ 23 ∧ mv ≤ 59 ∧ sv ≤ 59 then some (hv * 3600 + mv * 60 + sv) else none
    | _, _, _ => none
  | _ => none

/-- The duration parser over strings. -/
def parse_duration_str (s : String) : Option Nat :=
  parse_duration s.toList

/-! ## MediaAcquirer: download_songs / download_video

`download_video` does network and filesystem I/O.  The filesystem is
modelled as the list of paths that exist; the YouTube service is modelled
by two oracles: `ytTitle url` is the video title (or `none` when
constructing the YouTube object or reading the title raises, which the
function catches and turns into a null return), and `getAudio url` says
whether an audio-only stream is available and the download succeeds.  The
`downloaded` field is the observable side effect: whether a download was
actually performed by this call.
-/

/-- Result of one `download_video` call: the returned path, the filesystem
after the call, and whether a download was performed. -/
structure DlResult where
  path : Option String
  fs : List String
  downloaded : Bool
  deriving DecidableEq

/-- The `download_video` function of the script, over the modelled
filesystem and YouTube oracles. -/
def download_video (ytTitle : String → Option String) (getAudio : String → Bool)
    (fs : List String) (url : String) : DlResult :=
  match ytTitle url with
  | none => ⟨none, fs, false⟩
  | some t =>
    let title := yt_title_clean_str t
    let file_path := "datasets/songs/" ++ title ++ ".mp3"
    if file_path ∈ fs then ⟨some file_path, fs, false⟩
    else if getAudio url then ⟨some file_path, file_path :: fs, true⟩
    else ⟨none, fs, false⟩

/-- One search result handed to the acquirer (title, raw duration text,
resolved url). -/
structure SearchResult where
  title : String
  duration : String
  url : String
  deriving DecidableEq

/-- One row appended to `download_results` by `download_songs`. -/
structure AcqRow where
  title : String
  nama_lagu : String
  region : String
  keyword : String
  duration : Nat
  url : String
  path : Option String
  deriving DecidableEq

/-- The per-entry candidate loop of `download_songs`.  `dl url` is the
path returned by `download_video` for that url (None on failure).  The
second component is the list of urls for which `download_video` was
actually invoked, in order.  `count` is `downloaded_count`: the loop
breaks as soon as it reaches `k` (= SONG_LENGTH_PER_TITLE in the script),
and it is incremented after EVERY appended row, whether or not the
download succeeded. -/
def downloadLoop (k maxDur : Nat) (dl : String → Option String)
    (nama asal : String) : List SearchResult → Nat → List AcqRow × List String
  | [], _ => ([], [])
  | song :: rest, count =>
    if k ≤ count then ([], [])
    else
      match parse_duration song.duration.toList with
      | none => downloadLoop k maxDur dl nama asal rest count
      | some d =>
        if d < maxDur then
          (⟨song.title, nama, asal, asal ++ "," ++ asal, d, song.url, dl song.url⟩
             :: (downloadLoop k maxDur dl nama asal rest (count + 1)).1,
           song.url :: (downloadLoop k maxDur dl nama asal rest (count + 1)).2)
        else downloadLoop k maxDur dl nama asal rest count

/-- The per-entry acquisition of `download_songs` with the script's
constants. -/
def download_songs_entry (dl : String → Option String) (nama asal : String)
    (songs : List SearchResult) : List AcqRow × List String :=
  downloadLoop SONG_LENGTH_PER_TITLE MAX_VIDEO_DURATION dl nama asal songs 0

/-! ## Transcoder: convert_to_wav

Python source:
  if not path: return None
  wav_path = path.replace('songs', 'wav_songs').replace('.mp3', '.wav')
  if os.path.exists(wav_path): return wav_path
  os.makedirs('datasets/wav_songs', exist_ok=True)
  subprocess.run(['ffmpeg', '-i', path, wav_path], ...)
  return wav_path

str.replace substitutes every non-overlapping occurrence left to right;
`replaceSubAux` implements exactly that (the fuel argument only bounds the
recursion and is at least the list length, so it never runs out).  The
ffmpeg subprocess is an oracle from (input path, output path, filesystem)
to (exit code, new filesystem); the script ignores the exit code and never
checks whether the output file was created.
-/

/-- Left-to-right, non-overlapping substring replacement (Python
str.replace) with explicit fuel. -/
def replaceSubAux (pat rep : List Char) : Nat → List Char → List Char
  | _, [] => []
  | 0, l => l
  | fuel + 1, c :: cs =>
    if pat.isPrefixOf (c :: cs) then
      rep ++ replaceSubAux pat rep fuel (List.drop pat.length (c :: cs))
    else c :: replaceSubAux pat rep fuel cs

/-- Python str.replace over strings. -/
def strReplace (s pat rep : String) : String :=
  ⟨replaceSubAux pat.toList rep.toList s.toList.length s.toList⟩

/-- The wav path computed by `convert_to_wav` from the mp3 path. -/
def wav_path_of (p : String) : String :=
  strReplace (strReplace p "songs" "wav_songs") ".mp3" ".wav"

/-- Result of one `convert_to_wav` call: returned path, filesystem after
the call, and whether the ffmpeg subprocess was invoked. -/
structure ConvResult where
  path : Option String
  fs : List String
  invoked : Bool
  deriving DecidableEq

/-- The `convert_to_wav` function of the script.  `run inp out fs` models
the ffmpeg subprocess: its exit code and the filesystem it leaves behind.
A null or empty input path (Python `if not path`) returns null. -/
def convert_to_wav (run : String → String → List String → Nat × List String)
    (fs : List String) (path : Option String) : ConvResult :=
  match path with
  | none => ⟨none, fs, false⟩
  | some p =>
    if p = "" then ⟨none, fs, false⟩
    else
      let wav := wav_path_of p
      if wav ∈ fs then ⟨some wav, fs, false⟩
      else ⟨some wav, (run p wav fs).2, true⟩

/-! ## Segmenter: split_songs_to_segments (per-track core)

Python source (per row):
  total_duration = len(audio) / 1000
  num_segments = int(total_duration // SEGMENT_DURATION)
  for i in range(num_segments):
      start_time = i * SEGMENT_DURATION * 1000
      end_time = (i + 1) * SEGMENT_DURATION * 1000
      segment = audio[start_time:end_time]

The audio length is an integer number of milliseconds (pydub).  For an
integer window W > 0, int((lenMs / 1000) // W) equals lenMs / (1000 * W)
in natural division, which the proofs make explicit.  The model exposes
the (start, end) millisecond bounds of each emitted segment; the window
length is the script's SEGMENT_DURATION, kept as a parameter. -/
def split_track (windowSec lenMs : Nat) : List (Nat × Nat) :=
  (List.range (lenMs / 1000 / windowSec)).map
    (fun i => (i * windowSec * 1000, (i + 1) * windowSec * 1000))

/-! ## Orchestrator: the wav and feature stages of main

Python source:
  results_df['wav_path'] = results_df['path'].apply(convert_to_wav)
  results_df = results_df[results_df['wav_path'].notnull()]
  ...
  segments_df['mfcc'] = segments_df['30s_path'].map(extract_features)
  segments_df.to_csv('data/30s_segments.csv', index=False)

The wav stage attaches a wav path to every acquisition row and then
filters out the null ones.  The feature stage attaches an mfcc vector to
every segment row and writes the table WITHOUT filtering.  `extract`
models extract_features: `none` on decode/compute failure, otherwise the
mean mfcc vector (its element type is irrelevant to the claims and kept
abstract as `List Int`). -/

/-- One row of the segment table (nama_lagu and the 30s segment path). -/
structure SegRow where
  title : String
  path : String
  deriving DecidableEq

/-- The wav stage of `main`: attach `conv path` to each row, then keep
only rows whose wav path is non-null. -/
def wav_table (conv : Option String → Option String) (rows : List AcqRow) :
    List (AcqRow × Option String) :=
  (rows.map (fun r => (r, conv r.path))).filter (fun x => x.2.isSome)

/-- The feature stage of `main`: attach `extract path` to each segment
row; no filtering happens before the table is written. -/
def feature_table (extract : String → Option (List Int)) (segs : List SegRow) :
    List (SegRow × Option (List Int)) :=
  segs.map (fun s => (s, extract s.path))



/-! ## Basic evaluations -/

example : yt_title_clean "Lagu Daerah!".toList = "lagu_daerah".toList := by decide
example : parse_duration "2:10".toList = some 130 := by decide
example : parse_duration "1.02.03".toList = some 3723 := by decide
example : parse_duration "1:2:3:4".toList = none := by decide
example : wav_path_of "datasets/songs/abc.mp3" = "datasets/wav_songs/abc.wav" := by decide
example : (split_track 30 95000).length = 3 := by decide

/-! ## NameNormalizer lemmas -/

/-- Whether a character list contains two consecutive underscores. -/
def hasDoubleUnderscore : List Char → Bool
  | c :: d :: rest => (c == '_' && d == '_') || hasDoubleUnderscore (d :: rest)
  | _ => false

theorem map_id_of_mem {α : Type} (f : α → α) :
    ∀ l : List α, (∀ c ∈ l, f c = c) → l.map f = l
  | [], _ => rfl
  | c :: cs, h => by
    rw [List.map_cons, h c (List.mem_cons_self c cs),
      map_id_of_mem f cs (fun x hx => h x (List.mem_cons_of_mem c hx))]

theorem isKept_toLower (c : Char) (h : isKeptChar c = true) : Char.toLower c = c := by
  have h2 : ¬(c.toNat ≥ 65 ∧ c.toNat ≤ 90) := by
    simp only [isKeptChar, Bool.or_eq_true, Bool.and_eq_true, decide_eq_true_eq,
      beq_iff_eq] at h
    omega
  simp [Char.toLower, h2]

theorem isKept_space (c : Char) (h : isKeptChar c = true) : spaceToUnderscore c = c := by
  have hne : c ≠ ' ' := by
    intro he
    subst he
    exact absurd h (by decide)
  simp [spaceToUnderscore, hne]

theorem mem_collapse : ∀ (l : List Char) (c : Char), c ∈ collapseUnderscores l → c ∈ l
  | [], c => by simp [collapseUnderscores]
  | [d], c => by simp [collapseUnderscores]
  | a :: b :: rest, c => by
    simp only [collapseUnderscores]
    split
    · intro h
      exact List.mem_cons_of_mem a (mem_collapse (b :: rest) c h)
    · intro h
      rcases List.mem_cons.mp h with h1 | h2
      · exact h1 ▸ List.mem_cons_self a (b :: rest)
      · exact List.mem_cons_of_mem a (mem_collapse (b :: rest) c h2)

theorem collapse_head : ∀ (rest : List Char) (d : Char),
    ∃ t, collapseUnderscores (d :: rest) = d :: t
  | [], d => ⟨[], rfl⟩
  | e :: r, d => by
    simp only [collapseUnderscores]
    split
    · rename_i h
      obtain ⟨t, ht⟩ := collapse_head r e
      refine ⟨t, ?_⟩
      rw [ht, h.2, h.1]
    · exact ⟨collapseUnderscores (e :: r), rfl⟩

theorem hasDouble_collapse : ∀ l : List Char,
    hasDoubleUnderscore (collapseUnderscores l) = false
  | [] => rfl
  | [c] => rfl
  | c :: d :: rest => by
    simp only [collapseUnderscores]
    split
    · exact hasDouble_collapse (d :: rest)
    · rename_i h
      obtain ⟨t, ht⟩ := collapse_head rest d
      have h2 := hasDouble_collapse (d :: rest)
      rw [ht] at h2 ⊢
      simp only [hasDoubleUnderscore, Bool.or_eq_false_iff, Bool.and_eq_false_iff]
      refine ⟨?_, h2⟩
      by_cases hc : c = '_'
      · by_cases hd : d = '_'
        · exact absurd ⟨hc, hd⟩ h
        · exact Or.inr (by simpa using hd)
      · exact Or.inl (by simpa using hc)

theorem collapse_of_noDouble : ∀ l : List Char,
    hasDoubleUnderscore l = false → collapseUnderscores l = l
  | [], _ => rfl
  | [c], _ => rfl
  | c :: d :: rest, h => by
    simp only [hasDoubleUnderscore, Bool.or_eq_false_iff, Bool.and_eq_false_iff] at h
    simp only [collapseUnderscores]
    rw [if_neg, collapse_of_noDouble (d :: rest) h.2]
    intro hcd
    rcases h.1 with h1 | h1
    · exact absurd hcd.1 (by simpa using h1)
    · exact absurd hcd.2 (by simpa using h1)

theorem collapse_idem (l : List Char) :
    collapseUnderscores (collapseUnderscores l) = collapseUnderscores l :=
  collapse_of_noDouble _ (hasDouble_collapse l)

theorem clean_of_kept (y : List Char) (hk : ∀ c ∈ y, isKeptChar c = true) :
    yt_title_clean y = collapseUnderscores y := by
  have hmap : (y.map Char.toLower).map spaceToUnderscore = y := by
    rw [map_id_of_mem Char.toLower y (fun c hc => isKept_toLower c (hk c hc)),
      map_id_of_mem spaceToUnderscore y (fun c hc => isKept_space c (hk c hc))]
  have hkc : ∀ c ∈ collapseUnderscores y, isKeptChar c = true :=
    fun c hc => hk c (mem_collapse y c hc)
  unfold yt_title_clean
  rw [hmap, List.filter_eq_self.mpr hkc]

theorem clean_fixes (y : List Char) (hk : ∀ c ∈ y, isKeptChar c = true) :
    yt_title_clean (yt_title_clean y) = yt_title_clean y := by
  have h1 : yt_title_clean y = collapseUnderscores y := clean_of_kept y hk
  have hkc : ∀ c ∈ collapseUnderscores y, isKeptChar c = true :=
    fun c hc => hk c (mem_collapse y c hc)
  rw [h1, clean_of_kept _ hkc, collapse_idem]

/-- C4 counterexample: `yt_title_clean` is not idempotent.  On "a - b" the
first pass yields "a__b" (the collapse runs before the dash is stripped,
so stripping the dash merges the two separators), and a second pass then
collapses them to "a_b". -/
theorem yt_title_clean_not_idempotent :
    yt_title_clean (yt_title_clean "a - b".toList) ≠ yt_title_clean "a - b".toList := by
  decide

/-- C4 (amended): `yt_title_clean` is a pure function, so repeated calls
on the same input agree, but it is not idempotent; it stabilises from the
second application onward: applying it to the output of a double
application changes nothing. -/
theorem yt_title_clean_stable_from_second (l : List Char) :
    yt_title_clean (yt_title_clean (yt_title_clean l)) = yt_title_clean (yt_title_clean l) :=
  clean_fixes _ (fun _ hc => List.of_mem_filter hc)

/-- C7 counterexample: the output of `yt_title_clean` can contain two
consecutive underscores, because the collapse of underscore runs happens
before out-of-class characters are deleted. -/
theorem yt_title_clean_double_separator :
    yt_title_clean "la - la".toList = "la__la".toList
  ∧ hasDoubleUnderscore (yt_title_clean "la - la".toList) = true := by
  decide

/-- C7 (amended): every character of the output of `yt_title_clean` lies
in [a-z0-9_] (hence is lower-case and is not whitespace), but repeated
separators are NOT always collapsed: deleting a character that stood
between two separators can leave two consecutive underscores. -/
theorem yt_title_clean_charset (l : List Char) (c : Char) (hc : c ∈ yt_title_clean l) :
    isKeptChar c = true ∧ Char.toLower c = c ∧ c ≠ ' ' := by
  have hk : isKeptChar c = true := List.of_mem_filter hc
  refine ⟨hk, isKept_toLower c hk, ?_⟩
  intro he
  subst he
  exact absurd hk (by decide)

/-- Witness for `yt_title_clean_charset` at a concrete input. -/
theorem yt_title_clean_charset_witness :
    isKeptChar 'l' = true ∧ Char.toLower 'l' = 'l' ∧ 'l' ≠ ' ' :=
  yt_title_clean_charset "La!".toList 'l' (by decide)

/-! ## DurationParser lemmas -/

theorem splitCols_no_colon : ∀ l : List Char, (∀ c ∈ l, c ≠ ':') → splitCols l = [l]
  | [], _ => rfl
  | c :: cs, h => by
    have h1 : ¬(c = ':') := h c (List.mem_cons_self c cs)
    have ih := splitCols_no_colon cs (fun x hx => h x (List.mem_cons_of_mem c hx))
    simp only [splitCols, if_neg h1, ih]

theorem splitCols_append : ∀ (a b : List Char), (∀ c ∈ a, c ≠ ':') →
    splitCols (a ++ ':' :: b) = a :: splitCols b
  | [], b, _ => by simp [splitCols]
  | c :: a, b, h => by
    have h1 : ¬(c = ':') := h c (List.mem_cons_self c a)
    have ih := splitCols_append a b (fun x hx => h x (List.mem_cons_of_mem c hx))
    simp only [List.cons_append, splitCols, if_neg h1, List.append_eq, ih]

theorem fieldVal_digits : ∀ (f : List Char) (v : Nat), fieldVal f = some v →
    ∀ c ∈ f, isDigitChar c = true := by
  intro f v hv c hc
  match f with
  | [] => simp [fieldVal] at hv
  | [a] =>
    simp only [fieldVal] at hv
    split at hv
    · rename_i ha
      rcases List.mem_singleton.mp hc with rfl
      exact ha
    · exact absurd hv (by simp)
  | [a, b] =>
    simp only [fieldVal] at hv
    split at hv
    · rename_i hab
      rcases List.mem_cons.mp hc with rfl | hc2
      · exact hab.1
      · rcases List.mem_singleton.mp hc2 with rfl
        exact hab.2
    · exact absurd hv (by simp)
  | a :: b :: e :: r => simp [fieldVal] at hv

theorem digit_not_sep (c : Char) (h : isDigitChar c = true) :
    dotToColon c = c ∧ c ≠ ':' := by
  constructor
  · have hne : c ≠ '.' := by
      intro he
      subst he
      exact absurd h (by decide)
    simp [dotToColon, hne]
  · intro he
    subst he
    exact absurd h (by decide)

/-- The separators accepted by the parser: ':' and its synonym '.'. -/
def isSepChar (c : Char) : Prop := c = ':' ∨ c = '.'

theorem sep_to_colon (c : Char) (h : isSepChar c) : dotToColon c = ':' := by
  rcases h with rfl | rfl
  · rfl
  · rfl

theorem map_dot_field (f : List Char) (v : Nat) (hf : fieldVal f = some v) :
    f.map dotToColon = f :=
  map_id_of_mem dotToColon f (fun c hc => (digit_not_sep c (fieldVal_digits f v hf c hc)).1)

theorem field_no_colon (f : List Char) (v : Nat) (hf : fieldVal f = some v) :
    ∀ c ∈ f, c ≠ ':' :=
  fun c hc => (digit_not_sep c (fieldVal_digits f v hf c hc)).2

/-- The shapes accepted by `parse_duration` together with the value it
returns: a two-field M:S layout with both fields 0..59, or a three-field
H:M:S layout with hours 0..23 and minutes/seconds 0..59 (fields are one-
or two-digit numbers; '.' has already been replaced by ':'). -/
def DurationShape (l : List Char) (v : Nat) : Prop :=
  (∃ m s mv sv, splitCols (l.map dotToColon) = [m, s] ∧ fieldVal m = some mv ∧
    fieldVal s = some sv ∧ mv ≤ 59 ∧ sv ≤ 59 ∧ v = mv * 60 + sv) ∨
  (∃ fh fm fs hv mv sv, splitCols (l.map dotToColon) = [fh, fm, fs] ∧
    fieldVal fh = some hv ∧ fieldVal fm = some mv ∧ fieldVal fs = some sv ∧
    hv ≤ 23 ∧ mv ≤ 59 ∧ sv ≤ 59 ∧ v = hv * 3600 + mv * 60 + sv)

theorem parse_duration_sound (l : List Char) (v : Nat)
    (hv : parse_duration l = some v) : DurationShape l v := by
  unfold parse_duration at hv
  split at hv
  · rename_i m s heq
    split at hv
    · rename_i mv sv hm hs
      split at hv
      · rename_i hrange
        injection hv with hv
        exact Or.inl ⟨m, s, mv, sv, heq, hm, hs, hrange.1, hrange.2, hv.symm⟩
      · exact absurd hv (by simp)
    · exact absurd hv (by simp)
  · rename_i fh fm fs heq
    split at hv
    · rename_i hv2 mv sv hh hm hs
      split at hv
      · rename_i hrange
        injection hv with hv
        exact Or.inr ⟨fh, fm, fs, hv2, mv, sv, heq, hh, hm, hs,
          hrange.1, hrange.2.1, hrange.2.2, hv.symm⟩
      · exact absurd hv (by simp)
    · exact absurd hv (by simp)
  · exact absurd hv (by simp)

theorem parse_duration_two_field (sep : Char) (m s : List Char) (mv sv : Nat)
    (hsep : isSepChar sep) (hm : fieldVal m = some mv) (hs : fieldVal s = some sv)
    (hm59 : mv ≤ 59) (hs59 : sv ≤ 59) :
    parse_duration (m ++ sep :: s) = some (mv * 60 + sv) := by
  have hmap : (m ++ sep :: s).map dotToColon = m ++ ':' :: s := by
    rw [List.map_append, List.map_cons, map_dot_field m mv hm, map_dot_field s sv hs,
      sep_to_colon sep hsep]
  have hsplit : splitCols (m ++ ':' :: s) = [m, s] := by
    rw [splitCols_append m s (field_no_colon m mv hm),
      splitCols_no_colon s (field_no_colon s sv hs)]
  unfold parse_duration
  rw [hmap, hsplit]
  simp [hm, hs, hm59, hs59]

theorem parse_duration_three_field (sep1 sep2 : Char) (fh fm fs : List Char)
    (hv mv sv : Nat) (hsep1 : isSepChar sep1) (hsep2 : isSepChar sep2)
    (hh : fieldVal fh = some hv) (hm : fieldVal fm = some mv) (hs : fieldVal fs = some sv)
    (hh23 : hv ≤ 23) (hm59 : mv ≤ 59) (hs59 : sv ≤ 59) :
    parse_duration (fh ++ sep1 :: (fm ++ sep2 :: fs)) = some (hv * 3600 + mv * 60 + sv) := by
  have hmap : (fh ++ sep1 :: (fm ++ sep2 :: fs)).map dotToColon
      = fh ++ ':' :: (fm ++ ':' :: fs) := by
    rw [List.map_append, List.map_cons, List.map_append, List.map_cons,
      map_dot_field fh hv hh, map_dot_field fm mv hm, map_dot_field fs sv hs,
      sep_to_colon sep1 hsep1, sep_to_colon sep2 hsep2]
  have hsplit : splitCols (fh ++ ':' :: (fm ++ ':' :: fs)) = [fh, fm, fs] := by
    rw [splitCols_append fh (fm ++ ':' :: fs) (field_no_colon fh hv hh),
      splitCols_append fm fs (field_no_colon fm mv hm),
      splitCols_no_colon fs (field_no_colon fs sv hs)]
  unfold parse_duration
  rw [hmap, hsplit]
  simp [hh, hm, hs, hh23, hm59, hs59]

/-- C6 counterexample: "90:05" is an all-numeric two-field MM:SS-shaped
string, yet the parser rejects it instead of returning 90*60+5: strptime
restricts the minutes directive to 0..59. -/
theorem parse_duration_fails_on_90_05 :
    parse_duration "90:05".toList = none
  ∧ parse_duration "90:05".toList ≠ some (90 * 60 + 5) := by
  decide

/-- C6 (amended): for every M:S layout whose one- or two-digit fields are
in 0..59 (with ':' or its synonym '.') the parser returns 60*MM+SS; for
every H:M:S layout with hours 0..23 and minutes/seconds 0..59 it returns
3600*HH+60*MM+SS; and everything it accepts has one of those two shapes,
so any other layout — including all-numeric two-field strings with an
out-of-range field such as "90:05" — fails. -/
theorem parse_duration_layout_spec :
    (∀ (sep : Char) (m s : List Char) (mv sv : Nat), isSepChar sep →
      fieldVal m = some mv → fieldVal s = some sv → mv ≤ 59 → sv ≤ 59 →
      parse_duration (m ++ sep :: s) = some (mv * 60 + sv))
  ∧ (∀ (sep1 sep2 : Char) (fh fm fs : List Char) (hv mv sv : Nat),
      isSepChar sep1 → isSepChar sep2 →
      fieldVal fh = some hv → fieldVal fm = some mv → fieldVal fs = some sv →
      hv ≤ 23 → mv ≤ 59 → sv ≤ 59 →
      parse_duration (fh ++ sep1 :: (fm ++ sep2 :: fs)) = some (hv * 3600 + mv * 60 + sv))
  ∧ (∀ (l : List Char) (v : Nat), parse_duration l = some v → DurationShape l v) :=
  ⟨fun sep m s mv sv hsep hm hs hm59 hs59 =>
      parse_duration_two_field sep m s mv sv hsep hm hs hm59 hs59,
   fun sep1 sep2 fh fm fs hv mv sv h1 h2 hh hm hs h23 hm59 hs59 =>
      parse_duration_three_field sep1 sep2 fh fm fs hv mv sv h1 h2 hh hm hs h23 hm59 hs59,
   parse_duration_sound⟩

/-- Witness for `parse_duration_layout_spec` at the concrete input "2:10". -/
theorem parse_duration_layout_spec_witness :
    parse_duration (['2'] ++ ':' :: ['1', '0']) = some (2 * 60 + 10) :=
  parse_duration_layout_spec.1 ':' ['2'] ['1', '0'] 2 10 (Or.inl rfl)
    (by decide) (by decide) (by decide) (by decide)

/-- C10: everything `parse_duration` accepts is a two-field layout with
minutes and seconds in 0..59 or a three-field layout with hours in 0..23
and minutes/seconds in 0..59; in particular the all-numeric MM:SS-shaped
input "90:05" is rejected. -/
theorem parse_duration_range_restriction :
    (∀ (l : List Char) (v : Nat), parse_duration l = some v → DurationShape l v)
  ∧ parse_duration "90:05".toList = none :=
  ⟨parse_duration_sound, by decide⟩

/-- Witness for `parse_duration_range_restriction` at the concrete
input "1:30". -/
theorem parse_duration_range_restriction_witness :
    DurationShape "1:30".toList 90 :=
  parse_duration_range_restriction.1 "1:30".toList 90 (by decide)

/-! ## MediaAcquirer lemmas -/

theorem downloadLoop_length_le (k maxDur : Nat) (dl : String → Option String)
    (nama asal : String) :
    ∀ (songs : List SearchResult) (count : Nat),
      (downloadLoop k maxDur dl nama asal songs count).1.length ≤ k - count
  | [], count => by simp [downloadLoop]
  | song :: rest, count => by
    by_cases hk : k ≤ count
    · simp [downloadLoop, hk]
    · cases hd : parse_duration song.duration.toList with
      | none =>
        simp only [downloadLoop, if_neg hk, hd]
        exact downloadLoop_length_le k maxDur dl nama asal rest count
      | some d =>
        by_cases hlt : d < maxDur
        · simp only [downloadLoop, if_neg hk, hd, if_pos hlt, List.length_cons]
          have ih := downloadLoop_length_le k maxDur dl nama asal rest (count + 1)
          omega
        · simp only [downloadLoop, if_neg hk, hd, if_neg hlt]
          exact downloadLoop_length_le k maxDur dl nama asal rest count

theorem downloadLoop_stop (k maxDur : Nat) (dl : String → Option String)
    (nama asal : String) :
    ∀ (songs extra : List SearchResult) (count : Nat),
      (downloadLoop k maxDur dl nama asal songs count).1.length = k - count →
      downloadLoop k maxDur dl nama asal (songs ++ extra) count
        = downloadLoop k maxDur dl nama asal songs count
  | [], extra, count, h => by
    have hk : k ≤ count := by
      simp [downloadLoop] at h
      omega
    cases extra with
    | nil => rfl
    | cons e es => simp [downloadLoop, hk]
  | song :: rest, extra, count, h => by
    by_cases hk : k ≤ count
    · simp [downloadLoop, hk]
    · cases hd : parse_duration song.duration.toList with
      | none =>
        simp only [List.cons_append, List.append_eq, downloadLoop, if_neg hk, hd] at h ⊢
        exact downloadLoop_stop k maxDur dl nama asal rest extra count h
      | some d =>
        by_cases hlt : d < maxDur
        · simp only [List.cons_append, List.append_eq, downloadLoop, if_neg hk, hd, if_pos hlt,
            List.length_cons] at h ⊢
          have h2 : (downloadLoop k maxDur dl nama asal rest (count + 1)).1.length
              = k - (count + 1) := by omega
          rw [downloadLoop_stop k maxDur dl nama asal rest extra (count + 1) h2]
        · simp only [List.cons_append, List.append_eq, downloadLoop, if_neg hk, hd, if_neg hlt] at h ⊢
          exact downloadLoop_stop k maxDur dl nama asal rest extra count h

theorem downloadLoop_rows (k maxDur : Nat) (dl : String → Option String)
    (nama asal : String) :
    ∀ (songs : List SearchResult) (count : Nat) (r : AcqRow),
      r ∈ (downloadLoop k maxDur dl nama asal songs count).1 →
      r.duration < maxDur ∧ ∃ s ∈ songs, parse_duration s.duration.toList = some r.duration ∧
        r.url = s.url ∧ r.path = dl s.url
  | [], count, r => by simp [downloadLoop]
  | song :: rest, count, r => by
    by_cases hk : k ≤ count
    · simp [downloadLoop, hk]
    · cases hd : parse_duration song.duration.toList with
      | none =>
        simp only [downloadLoop, if_neg hk, hd]
        intro hr
        obtain ⟨hdur, s, hs, hrest⟩ := downloadLoop_rows k maxDur dl nama asal rest count r hr
        exact ⟨hdur, s, List.mem_cons_of_mem song hs, hrest⟩
      | some d =>
        by_cases hlt : d < maxDur
        · simp only [downloadLoop, if_neg hk, hd, if_pos hlt]
          intro hr
          rcases List.mem_cons.mp hr with rfl | hr2
          · exact ⟨hlt, song, List.mem_cons_self song rest, hd, rfl, rfl⟩
          · obtain ⟨hdur, s, hs, hrest⟩ :=
              downloadLoop_rows k maxDur dl nama asal rest (count + 1) r hr2
            exact ⟨hdur, s, List.mem_cons_of_mem song hs, hrest⟩
        · simp only [downloadLoop, if_neg hk, hd, if_neg hlt]
          intro hr
          obtain ⟨hdur, s, hs, hrest⟩ := downloadLoop_rows k maxDur dl nama asal rest count r hr
          exact ⟨hdur, s, List.mem_cons_of_mem song hs, hrest⟩

theorem downloadLoop_trace (k maxDur : Nat) (dl : String → Option String)
    (nama asal : String) :
    ∀ (songs : List SearchResult) (count : Nat) (u : String),
      u ∈ (downloadLoop k maxDur dl nama asal songs count).2 →
      ∃ s ∈ songs, s.url = u ∧ ∃ d, parse_duration s.duration.toList = some d ∧ d < maxDur
  | [], count, u => by simp [downloadLoop]
  | song :: rest, count, u => by
    by_cases hk : k ≤ count
    · simp [downloadLoop, hk]
    · cases hd : parse_duration song.duration.toList with
      | none =>
        simp only [downloadLoop, if_neg hk, hd]
        intro hu
        obtain ⟨s, hs, hrest⟩ := downloadLoop_trace k maxDur dl nama asal rest count u hu
        exact ⟨s, List.mem_cons_of_mem song hs, hrest⟩
      | some d =>
        by_cases hlt : d < maxDur
        · simp only [downloadLoop, if_neg hk, hd, if_pos hlt]
          intro hu
          rcases List.mem_cons.mp hu with rfl | hu2
          · exact ⟨song, List.mem_cons_self song rest, rfl, d, hd, hlt⟩
          · obtain ⟨s, hs, hrest⟩ :=
              downloadLoop_trace k maxDur dl nama asal rest (count + 1) u hu2
            exact ⟨s, List.mem_cons_of_mem song hs, hrest⟩
        · simp only [downloadLoop, if_neg hk, hd, if_neg hlt]
          intro hu
          obtain ⟨s, hs, hrest⟩ := downloadLoop_trace k maxDur dl nama asal rest count u hu
          exact ⟨s, List.mem_cons_of_mem song hs, hrest⟩

/-- C8: with quota k the per-entry loop never returns more than k
successful rows, every returned row passed the duration bound, only
candidates whose parsed duration is below the bound are ever handed to
`download_video`, and once the success count fills the quota appending
further candidates changes nothing (the loop stops consuming). -/
theorem acquirer_quota_law (k maxDur : Nat) (dl : String → Option String)
    (nama asal : String) (songs : List SearchResult) (count : Nat) :
    ((downloadLoop k maxDur dl nama asal songs count).1.countP
        (fun r => r.path.isSome) ≤ k - count)
  ∧ (∀ r ∈ (downloadLoop k maxDur dl nama asal songs count).1, r.duration < maxDur)
  ∧ (∀ u ∈ (downloadLoop k maxDur dl nama asal songs count).2,
      ∃ s ∈ songs, s.url = u ∧ ∃ d, parse_duration s.duration.toList = some d ∧ d < maxDur)
  ∧ (∀ extra : List SearchResult,
      (downloadLoop k maxDur dl nama asal songs count).1.countP
          (fun r => r.path.isSome) = k - count →
      downloadLoop k maxDur dl nama asal (songs ++ extra) count
        = downloadLoop k maxDur dl nama asal songs count) := by
  refine ⟨?_, ?_, ?_, ?_⟩
  · exact le_trans (List.countP_le_length _)
      (downloadLoop_length_le k maxDur dl nama asal songs count)
  · exact fun r hr => (downloadLoop_rows k maxDur dl nama asal songs count r hr).1
  · exact fun u hu => downloadLoop_trace k maxDur dl nama asal songs count u hu
  · intro extra hcount
    have hlen := downloadLoop_length_le k maxDur dl nama asal songs count
    have hcp := List.countP_le_length (l := (downloadLoop k maxDur dl nama asal songs count).1)
      (fun r => r.path.isSome)
    have hfull : (downloadLoop k maxDur dl nama asal songs count).1.length = k - count := by
      omega
    exact downloadLoop_stop k maxDur dl nama asal songs extra count hfull

/-- Witness for `acquirer_quota_law`: the specification scenario — three
candidates of 130s, 365s and 110s, bound 300s, quota 2: the 365s one is
skipped, the two others fill the quota, and a fourth candidate is never
consumed. -/
theorem acquirer_quota_law_witness :
    downloadLoop 2 300 (fun u => some u) "Ampar Ampar Pisang" "Kalimantan Selatan"
        ([⟨"c1", "2:10", "u1"⟩, ⟨"c2", "6:05", "u2"⟩, ⟨"c3", "1:50", "u3"⟩]
          ++ [⟨"c4", "1:00", "u4"⟩]) 0
      = downloadLoop 2 300 (fun u => some u) "Ampar Ampar Pisang" "Kalimantan Selatan"
        [⟨"c1", "2:10", "u1"⟩, ⟨"c2", "6:05", "u2"⟩, ⟨"c3", "1:50", "u3"⟩] 0 :=
  (acquirer_quota_law 2 300 (fun u => some u) "Ampar Ampar Pisang" "Kalimantan Selatan"
      [⟨"c1", "2:10", "u1"⟩, ⟨"c2", "6:05", "u2"⟩, ⟨"c3", "1:50", "u3"⟩] 0).2.2.2
    [⟨"c4", "1:00", "u4"⟩] (by decide)

/-- C1 counterexample: with every download failing, six valid candidates
and the script's quota of 5, the loop appends five rows with null path,
increments the counter for each failure, and never reaches the sixth
candidate — so a failed candidate DOES count against the per-entry
limit. -/
theorem acquirer_failed_downloads_consume_quota :
    download_songs_entry (fun _ => none) "n" "a"
        [⟨"t1", "2:10", "u1"⟩, ⟨"t2", "2:10", "u2"⟩, ⟨"t3", "2:10", "u3"⟩,
         ⟨"t4", "2:10", "u4"⟩, ⟨"t5", "2:10", "u5"⟩, ⟨"t6", "2:10", "u6"⟩]
      = ([⟨"t1", "n", "a", "a,a", 130, "u1", none⟩, ⟨"t2", "n", "a", "a,a", 130, "u2", none⟩,
          ⟨"t3", "n", "a", "a,a", 130, "u3", none⟩, ⟨"t4", "n", "a", "a,a", 130, "u4", none⟩,
          ⟨"t5", "n", "a", "a,a", 130, "u5", none⟩],
         ["u1", "u2", "u3", "u4", "u5"]) := by
  decide

/-- C1 (amended): a failed download is non-fatal — the loop logs and
moves on to the next candidate — but the row is still appended with a
null path and `downloaded_count` is still incremented, so the failed
candidate does count against `per_entry_limit`. -/
theorem acquirer_failed_download_counts (k maxDur : Nat) (dl : String → Option String)
    (nama asal : String) (song : SearchResult) (rest : List SearchResult) (count d : Nat)
    (hk : count < k) (hd : parse_duration song.duration.toList = some d)
    (hlt : d < maxDur) (hfail : dl song.url = none) :
    downloadLoop k maxDur dl nama asal (song :: rest) count
      = (⟨song.title, nama, asal, asal ++ "," ++ asal, d, song.url, none⟩
           :: (downloadLoop k maxDur dl nama asal rest (count + 1)).1,
         song.url :: (downloadLoop k maxDur dl nama asal rest (count + 1)).2) := by
  simp only [downloadLoop, if_neg (Nat.not_le.mpr hk), hd, if_pos hlt, hfail]

/-- Witness for `acquirer_failed_download_counts` at a concrete failing
candidate. -/
theorem acquirer_failed_download_counts_witness :
    downloadLoop 5 500 (fun _ => none) "n" "a" [⟨"t", "2:10", "u"⟩] 0
      = ([⟨"t", "n", "a", "a,a", 130, "u", none⟩], ["u"]) :=
  acquirer_failed_download_counts 5 500 (fun _ => none) "n" "a" ⟨"t", "2:10", "u"⟩ [] 0 130
    (by decide) (by decide) (by decide) (by decide)

/-! ## Transcoder and idempotency theorems -/

/-- C2 counterexample: with an ffmpeg oracle that exits 1 and creates no
file, `convert_to_wav` still invokes the tool and returns the computed
wav path even though that file does not exist afterwards — the row is NOT
dropped. -/
theorem transcoder_returns_missing_path :
    (convert_to_wav (fun _ _ fs => (1, fs)) [] (some "datasets/songs/abc.mp3")).path
        = some "datasets/wav_songs/abc.wav"
  ∧ (convert_to_wav (fun _ _ fs => (1, fs)) [] (some "datasets/songs/abc.mp3")).fs = []
  ∧ (convert_to_wav (fun _ _ fs => (1, fs)) [] (some "datasets/songs/abc.mp3")).invoked
        = true := by
  decide

/-- C2 (amended): `convert_to_wav` returns null exactly for a null (or
empty) input path; for any non-empty input it returns the computed wav
path unconditionally, without inspecting the subprocess exit code or
checking that the output file exists. -/
theorem transcoder_path_ignores_outcome :
    (∀ (run : String → String → List String → Nat × List String) (fs : List String),
      (convert_to_wav run fs none).path = none)
  ∧ (∀ (run : String → String → List String → Nat × List String) (fs : List String)
      (p : String), p ≠ "" →
      (convert_to_wav run fs (some p)).path = some (wav_path_of p)) := by
  constructor
  · intro run fs
    rfl
  · intro run fs p hne
    simp only [convert_to_wav, if_neg hne]
    by_cases hmem : wav_path_of p ∈ fs
    · simp [hmem]
    · simp [hmem]

/-- Witness for `transcoder_path_ignores_outcome` with a failing ffmpeg
oracle: the returned path is the mapped wav path even though the tool
created nothing. -/
theorem transcoder_path_ignores_outcome_witness :
    (convert_to_wav (fun _ _ fs => (1, fs)) [] (some "datasets/songs/x2.mp3")).path
      = some (wav_path_of "datasets/songs/x2.mp3") :=
  transcoder_path_ignores_outcome.2 (fun _ _ fs => (1, fs)) [] "datasets/songs/x2.mp3"
    (by decide)

/-- C9: (a) if `download_video` returns a path, running it again on the
resulting filesystem performs no download, changes nothing and returns
the same path; (b) a download is only ever performed when the target file
does not exist, and it only prepends the new file (never overwrites); and
(c) if the canonical wav file already exists, `convert_to_wav` returns it
without invoking the subprocess. -/
theorem acquire_transcode_idempotent :
    (∀ (ytTitle : String → Option String) (getAudio : String → Bool)
      (fs : List String) (url : String) (p : String),
      (download_video ytTitle getAudio fs url).path = some p →
      download_video ytTitle getAudio (download_video ytTitle getAudio fs url).fs url
        = ⟨some p, (download_video ytTitle getAudio fs url).fs, false⟩)
  ∧ (∀ (ytTitle : String → Option String) (getAudio : String → Bool)
      (fs : List String) (url : String),
      (download_video ytTitle getAudio fs url).downloaded = true →
      ∃ p, (download_video ytTitle getAudio fs url).path = some p ∧ p ∉ fs ∧
        (download_video ytTitle getAudio fs url).fs = p :: fs)
  ∧ (∀ (run : String → String → List String → Nat × List String)
      (fs : List String) (p : String), p ≠ "" → wav_path_of p ∈ fs →
      convert_to_wav run fs (some p) = ⟨some (wav_path_of p), fs, false⟩) := by
  refine ⟨?_, ?_, ?_⟩
  · intro ytTitle getAudio fs url p hp
    cases hyt : ytTitle url with
    | none => simp [download_video, hyt] at hp
    | some t =>
      by_cases hmem : "datasets/songs/" ++ yt_title_clean_str t ++ ".mp3" ∈ fs
      · simp only [download_video, hyt, if_pos hmem] at hp ⊢
        injection hp with hp
        simp [← hp, hmem]
      · by_cases hga : getAudio url
        · simp only [download_video, hyt, if_neg hmem, if_pos hga] at hp ⊢
          injection hp with hp
          simp [← hp, List.mem_cons_self]
        · simp [download_video, hyt, if_neg hmem, hga] at hp
  · intro ytTitle getAudio fs url hdl
    cases hyt : ytTitle url with
    | none => simp [download_video, hyt] at hdl
    | some t =>
      by_cases hmem : "datasets/songs/" ++ yt_title_clean_str t ++ ".mp3" ∈ fs
      · simp [download_video, hyt, if_pos hmem] at hdl
      · by_cases hga : getAudio url
        · refine ⟨"datasets/songs/" ++ yt_title_clean_str t ++ ".mp3", ?_, hmem, ?_⟩
          · simp [download_video, hyt, if_neg hmem, hga]
          · simp [download_video, hyt, if_neg hmem, hga]
        · simp [download_video, hyt, if_neg hmem, hga] at hdl
  · intro run fs p hne hmem
    simp [convert_to_wav, if_neg hne, hmem]

/-- Witness for `acquire_transcode_idempotent`: a concrete second
`download_video` run reuses the file written by the first without
re-downloading, and a concrete `convert_to_wav` run on an existing wav
file skips the subprocess. -/
theorem acquire_transcode_idempotent_witness :
    (download_video (fun _ => some "Song A") (fun _ => true)
        ((download_video (fun _ => some "Song A") (fun _ => true) [] "u").fs) "u"
      = ⟨some "datasets/songs/song_a.mp3",
          (download_video (fun _ => some "Song A") (fun _ => true) [] "u").fs, false⟩)
  ∧ (convert_to_wav (fun _ _ fs => (0, fs)) ["datasets/wav_songs/x.wav"]
        (some "datasets/songs/x.mp3")
      = ⟨some "datasets/wav_songs/x.wav", ["datasets/wav_songs/x.wav"], false⟩) :=
  ⟨acquire_transcode_idempotent.1 (fun _ => some "Song A") (fun _ => true) [] "u"
      "datasets/songs/song_a.mp3" (by decide),
   acquire_transcode_idempotent.2.2 (fun _ _ fs => (0, fs)) ["datasets/wav_songs/x.wav"]
      "datasets/songs/x.mp3" (by decide) (by decide)⟩

/-! ## Orchestrator feature-stage theorems -/

/-- C3 counterexample: when feature extraction fails for a segment, the
feature table still contains that row, with a null mfcc — nothing filters
null feature rows before the table is written. -/
theorem feature_table_keeps_null_rows :
    feature_table (fun _ => none) [⟨"t", "p"⟩] = [(⟨"t", "p"⟩, none)] := by
  decide

/-- C3 (amended): the final feature table has exactly one row per
segment, each carrying whatever the extractor returned — including null —
in contrast to the wav stage, whose output only contains rows with a
non-null wav path. -/
theorem feature_table_unfiltered (extract : String → Option (List Int))
    (segs : List SegRow) :
    (feature_table extract segs).length = segs.length
  ∧ (∀ s ∈ segs, (s, extract s.path) ∈ feature_table extract segs)
  ∧ (∀ (conv : Option String → Option String) (rows : List AcqRow)
      (x : AcqRow × Option String), x ∈ wav_table conv rows → x.2.isSome = true) := by
  refine ⟨List.length_map segs _, ?_, ?_⟩
  · intro s hs
    exact List.mem_map_of_mem (fun s => (s, extract s.path)) hs
  · intro conv rows x hx
    unfold wav_table at hx
    simpa using List.of_mem_filter hx

/-- Witness for `feature_table_unfiltered`: a one-segment table whose
extraction failed still has its (null) row. -/
theorem feature_table_unfiltered_witness :
    (feature_table (fun _ => none) [⟨"t2", "p2"⟩]).length = 1
  ∧ ((⟨"t2", "p2"⟩ : SegRow), (none : Option (List Int)))
      ∈ feature_table (fun _ => none) [⟨"t2", "p2"⟩] :=
  ⟨(feature_table_unfiltered (fun _ => none) [⟨"t2", "p2"⟩]).1,
   (feature_table_unfiltered (fun _ => none) [⟨"t2", "p2"⟩]).2.1 ⟨"t2", "p2"⟩ (by decide)⟩

/-! ## Segmenter theorems -/

/-- C5: for a track of `lenMs` milliseconds and a window of `windowSec`
seconds the segmenter emits exactly floor(D/W) segments (D the duration
in seconds, W the window), segment i covering exactly the half-open
window from i*W to (i+1)*W; every segment is exactly W long and ends
within the track; and a track shorter than one window yields no
segments. -/
theorem segment_count_law (windowSec lenMs : Nat) :
    (split_track windowSec lenMs).length = lenMs / (1000 * windowSec)
  ∧ (∀ (i : Nat) (hi : i < (split_track windowSec lenMs).length),
      (split_track windowSec lenMs).get ⟨i, hi⟩
        = (i * windowSec * 1000, (i + 1) * windowSec * 1000))
  ∧ (∀ p ∈ split_track windowSec lenMs, p.2 - p.1 = windowSec * 1000 ∧ p.2 ≤ lenMs)
  ∧ (lenMs < 1000 * windowSec → split_track windowSec lenMs = []) := by
  refine ⟨?_, ?_, ?_, ?_⟩
  · simp [split_track, Nat.div_div_eq_div_mul]
  · intro i hi
    rw [List.get_eq_getElem]
    simp [split_track]
  · intro p hp
    simp only [split_track, List.mem_map, List.mem_range] at hp
    obtain ⟨i, hi, rfl⟩ := hp
    constructor
    · have hring : (i + 1) * windowSec * 1000 = i * windowSec * 1000 + windowSec * 1000 := by
        ring
      omega
    · have h1 : i + 1 ≤ lenMs / 1000 / windowSec := hi
      have h2 : (lenMs / 1000 / windowSec) * windowSec ≤ lenMs / 1000 :=
        Nat.div_mul_le_self _ _
      have h3 : lenMs / 1000 * 1000 ≤ lenMs := Nat.div_mul_le_self _ _
      have h4 : (i + 1) * windowSec ≤ (lenMs / 1000 / windowSec) * windowSec :=
        Nat.mul_le_mul_right _ h1
      have h5 : (i + 1) * windowSec * 1000 ≤ (lenMs / 1000 / windowSec) * windowSec * 1000 :=
        Nat.mul_le_mul_right _ h4
      have h6 : (lenMs / 1000 / windowSec) * windowSec * 1000 ≤ lenMs / 1000 * 1000 :=
        Nat.mul_le_mul_right _ h2
      exact le_trans h5 (le_trans h6 h3)
  · intro h
    have hz : lenMs / 1000 / windowSec = 0 := by
      rw [Nat.div_div_eq_div_mul]
      exact Nat.div_eq_of_lt h
    simp [split_track, hz]

/-- Witness for `segment_count_law`: the specification scenario — a 95s
track with a 30s window yields 3 segments, the third covering 60s–90s,
and a 50ms track yields none. -/
theorem segment_count_law_witness :
    (split_track 30 95000).length = 95000 / (1000 * 30)
  ∧ (split_track 30 95000).get ⟨2, by decide⟩ = (2 * 30 * 1000, (2 + 1) * 30 * 1000)
  ∧ split_track 30 50 = [] :=
  ⟨(segment_count_law 30 95000).1,
   (segment_count_law 30 95000).2.1 2 (by decide),
   (segment_count_law 30 50).2.2.2 (by decide)⟩
